import Mathlib

/-!
Verification of the event-sourcing aggregate core found in
`2_idioms/2_3_bound_impl/src/main.rs`: sequence numbers, aggregate versions,
and the `HydratedAggregate` apply family with optimistic concurrency checks.

Machine integers are modelled as `Nat` with explicit bounds: an `EventNumber`
wraps a `NonZeroU64`, so it carries the strict-positivity and `u64::MAX`
upper-bound invariants of that type. Rust methods that mutate `&mut self` and
return `Result<(), AggregateError>` are modelled as functions returning the
`Except` result together with the value the receiver holds afterwards.
-/

namespace EventSourcing

/-- The largest value representable in a `u64`. -/
def U64_MAX : Nat := 18446744073709551615

/-- `u64::checked_add`: `none` exactly when the mathematical sum exceeds
`u64::MAX`. -/
def u64_checked_add (a b : Nat) : Option Nat :=
  if a + b ≤ U64_MAX then some (a + b) else none

/-- `EventNumber(NonZeroU64)`: an event sequence number, starting at 1.
The two proof fields are the invariants of `NonZeroU64`. -/
structure EventNumber where
  val : Nat
  val_pos : 0 < val
  val_le : val ≤ U64_MAX

theorem EventNumber.val_injective {a b : EventNumber} (h : a.val = b.val) :
    a = b := by
  cases a
  cases b
  cases h
  rfl

instance : DecidableEq EventNumber := fun a b =>
  if h : a.val = b.val then isTrue (EventNumber.val_injective h)
  else isFalse (fun he => h (congrArg EventNumber.val he))

/-- `EventNumber::MIN_VALUE`, the event number 1. -/
def EventNumber.MIN_VALUE : EventNumber := ⟨1, Nat.one_pos, by decide⟩

/-- `EventNumber::get`: the raw integer value. -/
def EventNumber.get (n : EventNumber) : Nat := n.val

/-- `Ord for EventNumber`: `self.0.cmp(&other.0)`, comparison by raw value. -/
def EventNumber.cmp (a b : EventNumber) : Ordering := compare a.val b.val

/-- `Version`: either `Initial` (no events applied yet) or the `Number` of the
last applied event. -/
inductive Version where
  | Initial : Version
  | Number : EventNumber → Version
deriving DecidableEq

/-- The derived `Ord for Version`: `Initial` precedes every `Number`, and
`Number` values compare by their `EventNumber`. -/
def Version.cmp : Version → Version → Ordering
  | .Initial, .Initial => .eq
  | .Initial, .Number _ => .lt
  | .Number _, .Initial => .gt
  | .Number a, .Number b => EventNumber.cmp a b

/-- The number of events a version reflects: `Initial` counts as 0 and
`Number n` as `n`. -/
def Version.toNat : Version → Nat
  | .Initial => 0
  | .Number n => n.val

/-- `AggregateError`: the three recoverable failure kinds. -/
inductive AggregateError where
  | VersionOverflow : AggregateError
  | VersionMismatch (expected actual : Version) : AggregateError
  | InvalidSequence : AggregateError
deriving DecidableEq

/-- `EventNumber::incr`: `self.0.get().checked_add(1)` fails with
`VersionOverflow` exactly when the value is `u64::MAX`; the subsequent
`NonZeroU64::new(next)` check can never fail because `next = val + 1 > 0`,
so the success branch builds the successor directly. On failure the
number is returned unchanged. -/
def EventNumber.incr (n : EventNumber) :
    Except AggregateError Unit × EventNumber :=
  if hle : n.val + 1 ≤ U64_MAX then
    (.ok (), ⟨n.val + 1, Nat.succ_pos n.val, hle⟩)
  else
    (.error .VersionOverflow, n)

/-- `Version::incr`: `Initial` becomes `Number(MIN_VALUE)`; a `Number`
delegates to `EventNumber::incr`, leaving the number unchanged on failure. -/
def Version.incr : Version → Except AggregateError Unit × Version
  | .Initial => (.ok (), .Number EventNumber.MIN_VALUE)
  | .Number en =>
    let p := en.incr
    (p.1, .Number p.2)

/-- `Version::validate_sequence(self, previous)`. The second guard computes
`prev.get() + 1` in `u64` arithmetic, hence the explicit reduction modulo
`2^64`. -/
def Version.validate_sequence (self previous : Version) :
    Except AggregateError Unit :=
  match previous, self with
  | .Initial, .Number n =>
    if n = EventNumber.MIN_VALUE then .ok () else .error .InvalidSequence
  | .Number prev, .Number curr =>
    if curr.get = (prev.get + 1) % (U64_MAX + 1) then .ok ()
    else .error .InvalidSequence
  | _, _ => .error .InvalidSequence

/-- The default `Aggregate::apply` method: delegates to
`AggregateEvent::apply_to`. The `AggregateEvent<A>` trait is modelled by
passing its single operation explicitly as a function `E → A → A`. -/
def Aggregate.apply {A E : Type} (apply_to : E → A → A) (s : A) (e : E) : A :=
  apply_to e s

/-- `HydratedAggregate<A>`: a state together with its version and the
version of the last snapshot, if any. -/
structure HydratedAggregate (A : Type) where
  version : Version
  snapshot_version : Option Version
  state : A

/-- `HydratedAggregate::new`: version `Initial`, no snapshot. -/
def HydratedAggregate.new {A : Type} (state : A) : HydratedAggregate A :=
  ⟨Version.Initial, none, state⟩

/-- `HydratedAggregate::set_snapshot_version`. -/
def HydratedAggregate.set_snapshot_version {A : Type} (h : HydratedAggregate A)
    (new_snapshot_version : Version) : HydratedAggregate A :=
  { h with snapshot_version := some new_snapshot_version }

/-- `HydratedAggregate::apply`: first `self.state.apply(event)` commits the
event to the state, then `self.version.incr()?` advances the version; when
the increment fails the state mutation is already in place and the version
is unchanged. -/
def HydratedAggregate.apply {A E : Type} (apply_to : E → A → A)
    (h : HydratedAggregate A) (e : E) :
    Except AggregateError Unit × HydratedAggregate A :=
  let s := Aggregate.apply apply_to h.state e
  let p := h.version.incr
  (p.1, ⟨p.2, h.snapshot_version, s⟩)

/-- `HydratedAggregate::apply_events`: applies each event in order,
short-circuiting with `?` on the first failure. -/
def HydratedAggregate.apply_events {A E : Type} (apply_to : E → A → A)
    (h : HydratedAggregate A) :
    List E → Except AggregateError Unit × HydratedAggregate A
  | [] => (.ok (), h)
  | e :: rest =>
    match h.apply apply_to e with
    | (.error err, h2) => (.error err, h2)
    | (.ok _, h2) => h2.apply_events apply_to rest

/-- `HydratedAggregate::apply_with_concurrency_check`: rejects with
`VersionMismatch` before any mutation when the current version differs from
the expected one; otherwise behaves as `apply`. -/
def HydratedAggregate.apply_with_concurrency_check {A E : Type}
    (apply_to : E → A → A) (h : HydratedAggregate A) (e : E)
    (expected_version : Version) :
    Except AggregateError Unit × HydratedAggregate A :=
  if h.version ≠ expected_version then
    (.error (.VersionMismatch expected_version h.version), h)
  else
    h.apply apply_to e

/-!
Helper lemmas about increments and version counting, shared by the claim
theorems below.
-/

theorem EventNumber.incr_of_lt_max (n : EventNumber) (hlt : n.val < U64_MAX) :
    n.incr = (.ok (), ⟨n.val + 1, Nat.succ_pos n.val, hlt⟩) := by
  unfold EventNumber.incr
  rw [dif_pos (Nat.succ_le_of_lt hlt)]

theorem EventNumber.incr_of_eq_max (n : EventNumber) (hmax : n.val = U64_MAX) :
    n.incr = (.error .VersionOverflow, n) := by
  unfold EventNumber.incr
  rw [dif_neg (by omega)]

theorem Version.toNat_injective {v w : Version} (h : v.toNat = w.toNat) :
    v = w := by
  cases v with
  | Initial =>
    cases w with
    | Initial => rfl
    | Number n =>
      have hp := n.val_pos
      simp [Version.toNat] at h
      omega
  | Number m =>
    cases w with
    | Initial =>
      have hp := m.val_pos
      simp [Version.toNat] at h
      omega
    | Number n =>
      exact congrArg Version.Number (EventNumber.val_injective h)

theorem Version.toNat_le_max (v : Version) : v.toNat ≤ U64_MAX := by
  cases v with
  | Initial => exact Nat.zero_le _
  | Number n => exact n.val_le

theorem Version.incr_lt (v : Version) (hlt : v.toNat < U64_MAX) :
    v.incr.1 = .ok () ∧ v.incr.2.toNat = v.toNat + 1 := by
  cases v with
  | Initial => exact ⟨rfl, rfl⟩
  | Number n =>
    have hn : n.val < U64_MAX := hlt
    simp [Version.incr, EventNumber.incr_of_lt_max n hn, Version.toNat]

theorem Version.incr_max (v : Version) (hmax : v.toNat = U64_MAX) :
    v.incr = (.error .VersionOverflow, v) := by
  cases v with
  | Initial => simp [Version.toNat, U64_MAX] at hmax
  | Number n =>
    have hn : n.val = U64_MAX := hmax
    simp [Version.incr, EventNumber.incr_of_eq_max n hn]

theorem Version.incr_ok (v : Version) (hok : v.incr.1 = .ok ()) :
    v.incr.2.toNat = v.toNat + 1 := by
  rcases Nat.lt_or_ge v.toNat U64_MAX with hlt | hge
  · exact (Version.incr_lt v hlt).2
  · have hmax : v.toNat = U64_MAX := Nat.le_antisymm (Version.toNat_le_max v) hge
    rw [Version.incr_max v hmax] at hok
    exact absurd hok (by simp)

theorem Version.incr_dichotomy (v : Version) :
    v.incr.2 = v ∨ v.incr.2.toNat = v.toNat + 1 := by
  rcases Nat.lt_or_ge v.toNat U64_MAX with hlt | hge
  · exact Or.inr (Version.incr_lt v hlt).2
  · have hmax : v.toNat = U64_MAX := Nat.le_antisymm (Version.toNat_le_max v) hge
    rw [Version.incr_max v hmax]
    exact Or.inl rfl

theorem HydratedAggregate.apply_snd {A E : Type} (apply_to : E → A → A)
    (h : HydratedAggregate A) (e : E) :
    (h.apply apply_to e).2
      = ⟨h.version.incr.2, h.snapshot_version, apply_to e h.state⟩ := rfl

theorem HydratedAggregate.apply_fst {A E : Type} (apply_to : E → A → A)
    (h : HydratedAggregate A) (e : E) :
    (h.apply apply_to e).1 = h.version.incr.1 := rfl

theorem HydratedAggregate.apply_ok_version {A E : Type} (apply_to : E → A → A)
    (h : HydratedAggregate A) (e : E)
    (hok : (h.apply apply_to e).1 = .ok ()) :
    (h.apply apply_to e).2.version.toNat = h.version.toNat + 1 :=
  Version.incr_ok h.version hok

/-- The event number `u64::MAX`, used to exercise the overflow paths. -/
def maxEventNumber : EventNumber := ⟨U64_MAX, by decide, Nat.le_refl U64_MAX⟩

/-- The event number 2. -/
def eventNumberTwo : EventNumber := ⟨2, by decide, by decide⟩

/-- C2: `validate_sequence self previous` succeeds iff either `previous` is
`Initial` and `self` is `Number(1)`, or `previous` is `Number(p)` and `self`
is `Number(p+1)`; in every other case it fails with `InvalidSequence`. -/
theorem validate_sequence_spec (self previous : Version) :
    (Version.validate_sequence self previous = .ok ()
      ↔ ((previous = Version.Initial
            ∧ self = Version.Number EventNumber.MIN_VALUE)
        ∨ (∃ p q : EventNumber, previous = Version.Number p
            ∧ self = Version.Number q ∧ q.val = p.val + 1))) ∧
    (Version.validate_sequence self previous = .ok ()
      ∨ Version.validate_sequence self previous = .error .InvalidSequence) := by
  constructor
  · cases previous with
    | Initial =>
      cases self with
      | Initial => simp [Version.validate_sequence]
      | Number n =>
        by_cases hn : n = EventNumber.MIN_VALUE
        · simp [Version.validate_sequence, hn]
        · simp [Version.validate_sequence, hn]
    | Number p =>
      cases self with
      | Initial => simp [Version.validate_sequence]
      | Number q =>
        have hple := p.val_le
        have hqpos := q.val_pos
        have hqle := q.val_le
        by_cases hstep : q.val = p.val + 1
        · have hguard : q.get = (p.get + 1) % (U64_MAX + 1) := by
            simp only [EventNumber.get, U64_MAX] at *
            omega
          simp [Version.validate_sequence, hguard, hstep]
        · have hguard : ¬ q.get = (p.get + 1) % (U64_MAX + 1) := by
            simp only [EventNumber.get, U64_MAX] at *
            omega
          simp [Version.validate_sequence, hguard, hstep]
  · cases previous <;> cases self <;> simp [Version.validate_sequence] <;>
      exact Decidable.em _

/-- C4: incrementing an event number whose value is `u64::MAX` fails with
`VersionOverflow` and returns the number unchanged; incrementing a version
equal to `Number(u64::MAX)` likewise fails with `VersionOverflow` and leaves
the version unchanged. -/
theorem incr_at_max_spec :
    (∀ n : EventNumber, n.val = U64_MAX →
      n.incr = (.error .VersionOverflow, n)) ∧
    (∀ n : EventNumber, n.val = U64_MAX →
      (Version.Number n).incr
        = (.error .VersionOverflow, Version.Number n)) := by
  constructor
  · exact fun n hmax => EventNumber.incr_of_eq_max n hmax
  · intro n hmax
    exact Version.incr_max (Version.Number n) hmax

theorem incr_at_max_spec_witness :
    maxEventNumber.incr = (.error .VersionOverflow, maxEventNumber) ∧
    (Version.Number maxEventNumber).incr
      = (.error .VersionOverflow, Version.Number maxEventNumber) :=
  ⟨incr_at_max_spec.1 maxEventNumber rfl,
   incr_at_max_spec.2 maxEventNumber rfl⟩

/-- C5: version increment is the successor function: `Initial` becomes
`Number(1)`; `Number(n)` with `n < u64::MAX` becomes `Number(n+1)`; and a
`Number` always delegates to the sequence-number increment, propagating its
result (in particular its overflow failure). -/
theorem version_incr_succ_spec :
    Version.Initial.incr = (.ok (), Version.Number EventNumber.MIN_VALUE) ∧
    (∀ (n : EventNumber) (hlt : n.val < U64_MAX),
      (Version.Number n).incr
        = (.ok (), Version.Number ⟨n.val + 1, Nat.succ_pos n.val, hlt⟩)) ∧
    (∀ n : EventNumber,
      (Version.Number n).incr = (n.incr.1, Version.Number n.incr.2)) := by
  refine ⟨rfl, ?_, fun n => rfl⟩
  intro n hlt
  simp [Version.incr, EventNumber.incr_of_lt_max n hlt]

theorem version_incr_succ_spec_witness :
    (Version.Number EventNumber.MIN_VALUE).incr
      = (.ok (), Version.Number eventNumberTwo) :=
  version_incr_succ_spec.2.1 EventNumber.MIN_VALUE (by decide)

/-- C8: the ordering on versions is total (comparison agrees with its swap
and is transitive), `Initial` is below every `Number`, `Number` values
compare exactly as their integers, and comparison-equality coincides with
structural equality. -/
theorem version_ord_spec :
    (∀ a b : Version, Version.cmp a b = .eq ↔ a = b) ∧
    (∀ n : EventNumber,
      Version.cmp Version.Initial (Version.Number n) = .lt
        ∧ Version.cmp (Version.Number n) Version.Initial = .gt) ∧
    (∀ a b : EventNumber,
      Version.cmp (Version.Number a) (Version.Number b) = compare a.val b.val) ∧
    (∀ a b : Version, Version.cmp a b = (Version.cmp b a).swap) ∧
    (∀ a b c : Version, Version.cmp a b = .lt → Version.cmp b c = .lt →
      Version.cmp a c = .lt) := by
  refine ⟨?_, fun n => ⟨rfl, rfl⟩, fun a b => rfl, ?_, ?_⟩
  · intro a b
    cases a <;> cases b <;>
      simp [Version.cmp, EventNumber.cmp, Nat.compare_eq_eq]
    case Number.Number m n =>
      constructor
      · exact fun hv => EventNumber.val_injective hv
      · exact fun he => congrArg EventNumber.val he
  · intro a b
    cases a with
    | Initial =>
      cases b with
      | Initial => rfl
      | Number n => rfl
    | Number m =>
      cases b with
      | Initial => rfl
      | Number n =>
        show compare m.val n.val = (compare n.val m.val).swap
        rcases Nat.lt_trichotomy m.val n.val with hlt | heq | hgt
        · rw [Nat.compare_eq_lt.2 hlt, Nat.compare_eq_gt.2 hlt]
          rfl
        · rw [Nat.compare_eq_eq.2 heq, Nat.compare_eq_eq.2 heq.symm]
          rfl
        · rw [Nat.compare_eq_gt.2 hgt, Nat.compare_eq_lt.2 hgt]
          rfl
  · intro a b c hab hbc
    cases a with
    | Initial =>
      cases b with
      | Initial => exact absurd hab (by simp [Version.cmp])
      | Number n =>
        cases c with
        | Initial => exact absurd hbc (by simp [Version.cmp])
        | Number k => rfl
    | Number m =>
      cases b with
      | Initial => exact absurd hab (by simp [Version.cmp])
      | Number n =>
        cases c with
        | Initial => exact absurd hbc (by simp [Version.cmp])
        | Number k =>
          have h1 : m.val < n.val := Nat.compare_eq_lt.1 hab
          have h2 : n.val < k.val := Nat.compare_eq_lt.1 hbc
          exact Nat.compare_eq_lt.2 (Nat.lt_trans h1 h2)

theorem version_ord_spec_witness :
    Version.cmp Version.Initial (Version.Number eventNumberTwo) = .lt :=
  version_ord_spec.2.2.2.2 Version.Initial
    (Version.Number EventNumber.MIN_VALUE) (Version.Number eventNumberTwo)
    (by decide) (by decide)

/-- C9: `set_snapshot_version v` sets the snapshot marker to `some v` and
leaves both the version and the state of the aggregate unchanged. -/
theorem set_snapshot_version_spec {A : Type} (h : HydratedAggregate A)
    (v : Version) :
    h.set_snapshot_version v = ⟨h.version, some v, h.state⟩ := rfl

/-- Unfolding equation for `apply_events` on a non-empty list. -/
theorem HydratedAggregate.apply_events_cons {A E : Type} (apply_to : E → A → A)
    (h : HydratedAggregate A) (e : E) (rest : List E) :
    h.apply_events apply_to (e :: rest)
      = match h.apply apply_to e with
        | (.error err, h2) => (.error err, h2)
        | (.ok _, h2) => h2.apply_events apply_to rest := rfl

theorem apply_events_ok_toNat {A E : Type} (apply_to : E → A → A) :
    ∀ (es : List E) (h : HydratedAggregate A),
      (h.apply_events apply_to es).1 = .ok () →
      (h.apply_events apply_to es).2.version.toNat
        = h.version.toNat + es.length := by
  intro es
  induction es with
  | nil =>
    intro h _
    simp [HydratedAggregate.apply_events]
  | cons e rest ih =>
    intro h hok
    rcases happ : h.apply apply_to e with ⟨r, h2⟩
    cases r with
    | error err =>
      have hred : h.apply_events apply_to (e :: rest) = (.error err, h2) := by
        rw [HydratedAggregate.apply_events_cons, happ]
      rw [hred] at hok
      exact absurd hok (by simp)
    | ok u =>
      cases u
      have hred : h.apply_events apply_to (e :: rest)
          = h2.apply_events apply_to rest := by
        rw [HydratedAggregate.apply_events_cons, happ]
      have hfst : (h.apply apply_to e).1 = .ok () := by rw [happ]
      have hver : h2.version.toNat = h.version.toNat + 1 := by
        have hv := HydratedAggregate.apply_ok_version apply_to h e hfst
        rw [happ] at hv
        exact hv
      rw [hred] at hok ⊢
      rw [ih h2 hok, hver]
      simp [List.length_cons]
      omega

theorem apply_events_error_first {A E : Type} (apply_to : E → A → A) :
    ∀ (es : List E) (h : HydratedAggregate A) (err : AggregateError),
      (h.apply_events apply_to es).1 = .error err →
      ∃ k, ∃ hk : k < es.length,
        (h.apply_events apply_to (es.take k)).1 = .ok ()
        ∧ ((h.apply_events apply_to (es.take k)).2.apply apply_to
            (es.get ⟨k, hk⟩)).1 = .error err
        ∧ (h.apply_events apply_to es).2
            = ((h.apply_events apply_to (es.take k)).2.apply apply_to
                (es.get ⟨k, hk⟩)).2 := by
  intro es
  induction es with
  | nil =>
    intro h err hbad
    exact absurd hbad (by simp [HydratedAggregate.apply_events])
  | cons e rest ih =>
    intro h err herr
    rcases happ : h.apply apply_to e with ⟨r, h2⟩
    cases r with
    | error err2 =>
      have hred : h.apply_events apply_to (e :: rest) = (.error err2, h2) := by
        rw [HydratedAggregate.apply_events_cons, happ]
      rw [hred] at herr
      have herr2 : err2 = err := by simpa using herr
      subst herr2
      refine ⟨0, Nat.succ_pos rest.length, rfl, ?_, ?_⟩
      · show (h.apply apply_to e).1 = .error err2
        rw [happ]
      · show (h.apply_events apply_to (e :: rest)).2 = (h.apply apply_to e).2
        rw [hred, happ]
    | ok u =>
      cases u
      have hred : h.apply_events apply_to (e :: rest)
          = h2.apply_events apply_to rest := by
        rw [HydratedAggregate.apply_events_cons, happ]
      rw [hred] at herr
      rcases ih h2 err herr with ⟨k, hk, hok, hfail, hsnd⟩
      have htake : h.apply_events apply_to ((e :: rest).take (k + 1))
          = h2.apply_events apply_to (rest.take k) := by
        show h.apply_events apply_to (e :: rest.take k) = _
        rw [HydratedAggregate.apply_events_cons, happ]
      refine ⟨k + 1, Nat.succ_lt_succ hk, ?_, ?_, ?_⟩
      · rw [htake]
        exact hok
      · rw [htake]
        exact hfail
      · rw [hred, htake]
        exact hsnd

theorem apply_events_snapshot {A E : Type} (apply_to : E → A → A) :
    ∀ (es : List E) (h : HydratedAggregate A),
      (h.apply_events apply_to es).2.snapshot_version = h.snapshot_version := by
  intro es
  induction es with
  | nil =>
    intro h
    rfl
  | cons e rest ih =>
    intro h
    rcases happ : h.apply apply_to e with ⟨r, h2⟩
    have hsnap : h2.snapshot_version = h.snapshot_version := by
      have : (h.apply apply_to e).2.snapshot_version = h.snapshot_version := rfl
      rw [happ] at this
      exact this
    cases r with
    | error err =>
      have hred : h.apply_events apply_to (e :: rest) = (.error err, h2) := by
        rw [HydratedAggregate.apply_events_cons, happ]
      rw [hred]
      exact hsnap
    | ok u =>
      cases u
      have hred : h.apply_events apply_to (e :: rest)
          = h2.apply_events apply_to rest := by
        rw [HydratedAggregate.apply_events_cons, happ]
      rw [hred, ih h2]
      exact hsnap

/-- A single legal version transition: unchanged, or advanced by exactly one
event (`Initial` to `Number(1)`, or `Number(n)` to `Number(n+1)`). -/
def versionStep (v w : Version) : Prop :=
  w = v ∨ w.toNat = v.toNat + 1

theorem apply_versionStep {A E : Type} (apply_to : E → A → A)
    (h : HydratedAggregate A) (e : E) :
    versionStep h.version (h.apply apply_to e).2.version := by
  show versionStep h.version h.version.incr.2
  rcases Version.incr_dichotomy h.version with h1 | h2
  · exact Or.inl h1
  · exact Or.inr h2

theorem apply_events_reflTransGen {A E : Type} (apply_to : E → A → A) :
    ∀ (es : List E) (h : HydratedAggregate A),
      Relation.ReflTransGen versionStep h.version
        ((h.apply_events apply_to es).2.version) := by
  intro es
  induction es with
  | nil =>
    intro h
    exact Relation.ReflTransGen.refl
  | cons e rest ih =>
    intro h
    rcases happ : h.apply apply_to e with ⟨r, h2⟩
    have hstep : versionStep h.version h2.version := by
      have hv := apply_versionStep apply_to h e
      rw [happ] at hv
      exact hv
    cases r with
    | error err =>
      have hred : h.apply_events apply_to (e :: rest) = (.error err, h2) := by
        rw [HydratedAggregate.apply_events_cons, happ]
      rw [hred]
      exact Relation.ReflTransGen.single hstep
    | ok u =>
      cases u
      have hred : h.apply_events apply_to (e :: rest)
          = h2.apply_events apply_to rest := by
        rw [HydratedAggregate.apply_events_cons, happ]
      rw [hred]
      exact Relation.ReflTransGen.head hstep (ih h2)

/-- A fresh aggregate over a counter state, as in the repository's tests. -/
def hFresh : HydratedAggregate Nat := HydratedAggregate.new 0

/-- The counter-increment event of the repository's tests, as its `apply_to`
function. -/
def bumpCounter : Unit → Nat → Nat := fun _ n => n + 1

/-- An aggregate whose version is `Number(u64::MAX)`. -/
def hAtMax : HydratedAggregate Nat :=
  ⟨Version.Number maxEventNumber, none, 0⟩

/-- C1 (amended): if the aggregate's version differs from the expected one,
`apply_with_concurrency_check` fails with `VersionMismatch{expected, actual}`
and leaves version, snapshot version, and state exactly unchanged; if the
versions match and the version is below `Number(u64::MAX)`, it succeeds,
advances the version by exactly one, commits the event to the state, and
leaves the snapshot marker unchanged; if the versions match at
`Number(u64::MAX)`, it propagates `apply`'s `VersionOverflow` failure, with
the state already mutated and the version unchanged. -/
theorem apply_with_concurrency_check_spec {A E : Type} (apply_to : E → A → A)
    (h : HydratedAggregate A) (e : E) (v : Version) :
    (h.version ≠ v →
      h.apply_with_concurrency_check apply_to e v
        = (.error (.VersionMismatch v h.version), h)) ∧
    (h.version = v → v.toNat < U64_MAX →
      (h.apply_with_concurrency_check apply_to e v).1 = .ok ()
      ∧ (h.apply_with_concurrency_check apply_to e v).2.version.toNat
          = v.toNat + 1
      ∧ (h.apply_with_concurrency_check apply_to e v).2.snapshot_version
          = h.snapshot_version
      ∧ (h.apply_with_concurrency_check apply_to e v).2.state
          = apply_to e h.state) ∧
    (h.version = v → v.toNat = U64_MAX →
      h.apply_with_concurrency_check apply_to e v
        = (.error .VersionOverflow,
            ⟨h.version, h.snapshot_version, apply_to e h.state⟩)) := by
  refine ⟨?_, ?_, ?_⟩
  · intro hne
    unfold HydratedAggregate.apply_with_concurrency_check
    rw [if_pos hne]
  · intro hv hlt
    subst hv
    have hred : h.apply_with_concurrency_check apply_to e h.version
        = h.apply apply_to e := by
      unfold HydratedAggregate.apply_with_concurrency_check
      rw [if_neg (by simp)]
    rw [hred]
    exact ⟨(Version.incr_lt h.version hlt).1,
      (Version.incr_lt h.version hlt).2, rfl, rfl⟩
  · intro hv hmax
    subst hv
    have hred : h.apply_with_concurrency_check apply_to e h.version
        = h.apply apply_to e := by
      unfold HydratedAggregate.apply_with_concurrency_check
      rw [if_neg (by simp)]
    rw [hred]
    show (h.version.incr.1,
        (⟨h.version.incr.2, h.snapshot_version, apply_to e h.state⟩
          : HydratedAggregate A)) = _
    rw [Version.incr_max h.version hmax]

theorem apply_with_concurrency_check_spec_witness :
    ((hFresh.apply_with_concurrency_check bumpCounter ()
        Version.Initial).1 = .ok ())
    ∧ (hFresh.apply_with_concurrency_check bumpCounter ()
        (Version.Number EventNumber.MIN_VALUE)
        = (.error (.VersionMismatch (Version.Number EventNumber.MIN_VALUE)
            Version.Initial), hFresh)) :=
  ⟨((apply_with_concurrency_check_spec bumpCounter hFresh ()
      Version.Initial).2.1 rfl (by decide)).1,
   (apply_with_concurrency_check_spec bumpCounter hFresh ()
      (Version.Number EventNumber.MIN_VALUE)).1 (by decide)⟩

/-- C1 counterexample: an aggregate at version `Number(u64::MAX)`, checked
against that very version, does not succeed as the claim states: the matching
check falls through to `apply`, which fails with `VersionOverflow`. -/
theorem apply_with_concurrency_check_claim_cex :
    (hAtMax.apply_with_concurrency_check bumpCounter ()
        (Version.Number maxEventNumber)).1 = .error .VersionOverflow := by
  have hred : hAtMax.apply_with_concurrency_check bumpCounter ()
      (Version.Number maxEventNumber) = hAtMax.apply bumpCounter () := by
    unfold HydratedAggregate.apply_with_concurrency_check
    rw [if_neg (by simp [hAtMax])]
  rw [hred]
  show hAtMax.version.incr.1 = .error .VersionOverflow
  rw [Version.incr_max hAtMax.version rfl]

/-- C3: `apply_events` applies the events in iteration order one at a time:
on success the version advances by exactly the number of events supplied; on
failure there is a position `k` such that the first `k` events were applied
successfully and the `(k+1)`-st `apply` produced exactly the returned error,
with the resulting aggregate being the state after that failed `apply`. In
particular a fresh aggregate that successfully applies `n` events ends at the
version counting `n` (and version counts determine versions uniquely, with
count 0 read as `Initial`). -/
theorem apply_events_spec {A E : Type} (apply_to : E → A → A) :
    (∀ (h : HydratedAggregate A) (es : List E),
      (h.apply_events apply_to es).1 = .ok () →
      (h.apply_events apply_to es).2.version.toNat
        = h.version.toNat + es.length) ∧
    (∀ (h : HydratedAggregate A) (es : List E) (err : AggregateError),
      (h.apply_events apply_to es).1 = .error err →
      ∃ k, ∃ hk : k < es.length,
        (h.apply_events apply_to (es.take k)).1 = .ok ()
        ∧ ((h.apply_events apply_to (es.take k)).2.apply apply_to
            (es.get ⟨k, hk⟩)).1 = .error err
        ∧ (h.apply_events apply_to es).2
            = ((h.apply_events apply_to (es.take k)).2.apply apply_to
                (es.get ⟨k, hk⟩)).2) ∧
    (∀ (h : HydratedAggregate A) (es : List E),
      h.version = Version.Initial →
      (h.apply_events apply_to es).1 = .ok () →
      (h.apply_events apply_to es).2.version.toNat = es.length) ∧
    (∀ v w : Version, v.toNat = w.toNat → v = w) := by
  refine ⟨fun h es => apply_events_ok_toNat apply_to es h,
    fun h es err => apply_events_error_first apply_to es h err, ?_,
    fun v w hvw => Version.toNat_injective hvw⟩
  intro h es hinit hok
  have hadv := apply_events_ok_toNat apply_to es h hok
  rw [hinit] at hadv
  simpa [Version.toNat] using hadv

theorem apply_events_spec_witness :
    (hFresh.apply_events bumpCounter [(), ()]).2.version.toNat = 2 :=
  (apply_events_spec bumpCounter).2.2.1 hFresh [(), ()] rfl rfl

/-- C6: when the aggregate's version is `Number(u64::MAX)`, `apply` fails
with `VersionOverflow` but the event's effect has already been committed to
the state while the version stays unchanged, so state and version end up
inconsistent; the same non-atomic outcome is produced through the overflow
paths of `apply_events` and `apply_with_concurrency_check`. -/
theorem apply_overflow_not_atomic {A E : Type} (apply_to : E → A → A)
    (h : HydratedAggregate A) (e : E) (hmax : h.version.toNat = U64_MAX) :
    h.apply apply_to e
      = (.error .VersionOverflow,
          ⟨h.version, h.snapshot_version, apply_to e h.state⟩) ∧
    (∀ rest : List E,
      h.apply_events apply_to (e :: rest)
        = (.error .VersionOverflow,
            ⟨h.version, h.snapshot_version, apply_to e h.state⟩)) ∧
    h.apply_with_concurrency_check apply_to e h.version
      = (.error .VersionOverflow,
          ⟨h.version, h.snapshot_version, apply_to e h.state⟩) := by
  have happly : h.apply apply_to e
      = (.error .VersionOverflow,
          ⟨h.version, h.snapshot_version, apply_to e h.state⟩) := by
    show (h.version.incr.1,
        (⟨h.version.incr.2, h.snapshot_version, apply_to e h.state⟩
          : HydratedAggregate A)) = _
    rw [Version.incr_max h.version hmax]
  refine ⟨happly, ?_, ?_⟩
  · intro rest
    rw [HydratedAggregate.apply_events_cons, happly]
  · unfold HydratedAggregate.apply_with_concurrency_check
    rw [if_neg (by simp)]
    exact happly

theorem apply_overflow_not_atomic_witness :
    hAtMax.apply bumpCounter ()
      = (.error .VersionOverflow,
          ⟨Version.Number maxEventNumber, none, 1⟩) :=
  (apply_overflow_not_atomic bumpCounter hAtMax () rfl).1

/-- C7 (amended): `apply` and `apply_with_concurrency_check` either leave the
version unchanged or advance it by exactly one legal step (`Initial` to
`Number(1)`, `Number(n)` to `Number(n+1)`); `set_snapshot_version` never
changes the version; and the transition realised by `apply_events` is a
finite composition of such single steps, so the version never skips a value,
regresses, or returns to `Initial` except through legal successor steps. -/
theorem version_step_invariant {A E : Type} (apply_to : E → A → A) :
    (∀ (h : HydratedAggregate A) (e : E),
      versionStep h.version (h.apply apply_to e).2.version) ∧
    (∀ (h : HydratedAggregate A) (e : E) (v : Version),
      versionStep h.version
        (h.apply_with_concurrency_check apply_to e v).2.version) ∧
    (∀ (h : HydratedAggregate A) (v : Version),
      (h.set_snapshot_version v).version = h.version) ∧
    (∀ (h : HydratedAggregate A) (es : List E),
      Relation.ReflTransGen versionStep h.version
        ((h.apply_events apply_to es).2.version)) := by
  refine ⟨fun h e => apply_versionStep apply_to h e, ?_,
    fun h v => rfl, fun h es => apply_events_reflTransGen apply_to es h⟩
  intro h e v
  unfold HydratedAggregate.apply_with_concurrency_check
  split
  · exact Or.inl rfl
  · exact apply_versionStep apply_to h e

/-- C7 counterexample: `apply_events` with two events is a public operation
whose net version transition goes from `Initial` directly to `Number(2)`,
which is not a single legal step, refuting the claim that every public
operation leaves the version unchanged or moves it by exactly one step. -/
theorem version_step_claim_cex :
    ¬ versionStep hFresh.version
        ((hFresh.apply_events bumpCounter [(), ()]).2.version) := by
  unfold versionStep
  decide

/-- C10: the apply family never touches the snapshot marker: `apply`,
`apply_events`, and `apply_with_concurrency_check` leave `snapshot_version`
unchanged whether they succeed or fail. -/
theorem apply_preserves_snapshot_version {A E : Type} (apply_to : E → A → A) :
    (∀ (h : HydratedAggregate A) (e : E),
      (h.apply apply_to e).2.snapshot_version = h.snapshot_version) ∧
    (∀ (h : HydratedAggregate A) (es : List E),
      (h.apply_events apply_to es).2.snapshot_version
        = h.snapshot_version) ∧
    (∀ (h : HydratedAggregate A) (e : E) (v : Version),
      (h.apply_with_concurrency_check apply_to e v).2.snapshot_version
        = h.snapshot_version) := by
  refine ⟨fun h e => rfl, fun h es => apply_events_snapshot apply_to es h, ?_⟩
  intro h e v
  unfold HydratedAggregate.apply_with_concurrency_check
  split
  · rfl
  · rfl

end EventSourcing
